import Mathlib

/-!
Verification of the PRD-review analysis engine specification against the
repository's code.  The orchestration backend (plan generation, concurrent
section analysis, retrieval with rerank fallback, report compilation,
event streaming) is modelled from the specification; the frontend pieces
(the final-report parser and the analysis API client) are embedded from
the TypeScript source.
-/

namespace PRD

/-- Association-list map with string keys.  `setKey` models a dictionary
key assignment (JS object / Python dict insert): it overwrites the value
of an existing key in place and appends a fresh key at the end. -/
def setKey {α : Type} : List (String × α) → String → α → List (String × α)
  | [], k, v => [(k, v)]
  | p :: t, k, v => if p.1 == k then (k, v) :: t else p :: setKey t k v

/-- Dictionary lookup: value of the first entry whose key matches. -/
def lookupKey {α : Type} (m : List (String × α)) (k : String) : Option α :=
  (m.find? (fun p => p.1 == k)).map (fun p => p.2)

/-- Building a map from a list of entries by repeated key assignment. -/
def buildMap {α : Type} (entries : List (String × α)) : List (String × α) :=
  entries.foldl (fun m e => setKey m e.1 e.2) []

/-- Modelled from the spec: the input document of an analysis job
(spec 4.1; the repository's backend source is not under src/). -/
structure Document where
  content : String
  deriving DecidableEq

/-- Modelled from the spec: a planned analysis section (spec section 3,
SectionSpec: name, natural-language instruction, order index). -/
structure SectionSpec where
  name : String
  instruction : String
  orderIndex : Nat
  deriving DecidableEq

/-- Modelled from the spec: one section's structured analysis result
(spec section 3, SectionResult). -/
structure SectionResult where
  section_name : String
  analysis : String
  recommendations : List String
  pitfalls : List String
  supportedPoints : List String
  score : Int
  sources : List String
  deriving DecidableEq

/-- Modelled from the spec: the web augmentation output (spec section 3,
WebSuggestion: two ordered suggestion lists with citations). -/
structure WebSuggestion where
  hypotheses : List String
  considerations : List String
  deriving DecidableEq

/-- Modelled from the spec: the raw structured output of one generation
call.  Each of the five schema fields may be missing (structured-output
mismatch risk, spec 4.3 and section 9); `sources` lists the citations
drawn from the grounding context. -/
structure GenOutput where
  analysis : Option String
  recommendations : Option (List String)
  pitfalls : Option (List String)
  supportedPoints : Option (List String)
  score : Option Int
  sources : List String
  deriving DecidableEq

/-- Modelled from the spec: planning failure (spec 4.1, PlanningError). -/
structure PlanningError where
  msg : String
  deriving DecidableEq

/-- Modelled from the spec: the minimum content length below which the
Plan Generator fails (spec 4.1 names a minimum but no constant). -/
def minContentLength : Nat := 50

/-- Modelled from the spec: the Plan Generator (spec 4.1).  The planned
section list itself comes from an LLM call, modelled by the `planned`
oracle; the generator fails on an empty or too-short document. -/
def generatePlan (doc : Document) (planned : List SectionSpec) :
    Except PlanningError (List SectionSpec) :=
  if doc.content.length < minContentLength then
    .error ⟨"Document is empty or below the minimum content length"⟩
  else .ok planned

/-- Modelled from the spec: the sentinel minimum score used for degraded
results (spec section 3: defaults to a sentinel low score, range 0-5). -/
def sentinelScore : Int := 0

/-- Modelled from the spec: the structured-output validation of a
generation response (spec 4.3): all five schema fields must be present
and the score must lie in the bounded 0-5 range. -/
def validateOutput (nm : String) (g : GenOutput) : Option SectionResult :=
  match g.analysis, g.recommendations, g.pitfalls, g.supportedPoints, g.score with
  | some a, some rec, some pit, some sup, some sc =>
      if 0 ≤ sc ∧ sc ≤ 5 then
        some ⟨nm, a, rec, pit, sup, sc, g.sources⟩
      else none
  | _, _, _, _, _ => none

/-- Modelled from the spec: the degraded SectionResult substituted when
generation exhausts its retry (spec 4.3 failure semantics). -/
def degradedResult (sp : SectionSpec) : SectionResult :=
  { section_name := sp.name
  , analysis := "Analysis failed for this section: the generation call did not return a valid structured result after one retry."
  , recommendations := []
  , pitfalls := []
  , supportedPoints := []
  , score := sentinelScore
  , sources := [] }

/-- Modelled from the spec: the Section Analyzer (spec 4.3).  `gen n` is
the outcome of the n-th generation attempt (`none` = call failure or
timeout).  A schema-invalid or failed response is retried once, then
degraded to a minimal SectionResult rather than dropped. -/
def analyze (sp : SectionSpec) (gen : Nat → Option GenOutput) : SectionResult :=
  match (gen 0).bind (validateOutput sp.name) with
  | some r => r
  | none =>
      match (gen 1).bind (validateOutput sp.name) with
      | some r => r
      | none => degradedResult sp

/-- Modelled from the spec: retrieval strategy selector (spec section 3,
RetrievalQuery: plain | compressed). -/
inductive RetrievalStrategy
  | plain
  | compressed
  deriving DecidableEq

/-- Modelled from the spec: a retrieval request (spec section 3). -/
structure RetrievalQuery where
  query : String
  typeFilter : List String
  count : Nat
  strategy : RetrievalStrategy
  deriving DecidableEq

/-- Modelled from the spec: a ranked corpus document (spec section 3,
RetrievedDocument; the similarity score is kept as a scaled integer). -/
structure RetrievedDocument where
  sourceId : String
  title : String
  excerpt : String
  score : Int
  category : String
  deriving DecidableEq

/-- Modelled from the spec: the corpus vector index consumed by the
Retrieval Service (spec section 6, `search`/`searchWithFilter`): a ranked
document list for a query under a category filter. -/
structure VectorStore where
  search : String → List String → List RetrievedDocument

/-- Modelled from the spec: the over-fetch multiplier used before
reranking (spec 4.2 step 2, e.g. 2-3x the requested count). -/
def overfetchMultiplier : Nat := 3

/-- Modelled from the spec: the Retrieval Service (spec 4.2).  `rerank`
is the external reranking/compression dependency; a rerank error falls
back to the plain similarity result set instead of failing the call. -/
def retrieve (store : VectorStore)
    (rerank : List RetrievedDocument → Except String (List RetrievedDocument))
    (q : RetrievalQuery) : Except String (List RetrievedDocument) :=
  match q.strategy with
  | .plain => .ok ((store.search q.query q.typeFilter).take q.count)
  | .compressed =>
      let overfetched := (store.search q.query q.typeFilter).take (overfetchMultiplier * q.count)
      match rerank overfetched with
      | .ok reranked => .ok (reranked.take q.count)
      | .error _ => .ok ((store.search q.query q.typeFilter).take q.count)

/-- Modelled from the spec: half-up rounding of the rational num/den to
the nearest integer (the spec leaves the rounding mode open; half-up is
chosen and documented here). -/
def roundHalfUp (num den : Int) : Int := (2 * num + den) / (2 * den)

/-- Modelled from the spec: the aggregate score of a report is the
arithmetic mean of the section scores rounded to the integer scale
(spec 4.5). -/
def aggregateScore (scores : List Int) : Int :=
  if scores.length = 0 then 0 else roundHalfUp scores.sum (scores.length : Int)

/-- Modelled from the spec: the final report (spec section 3,
FinalReport: all SectionResults in plan order, optional web block,
aggregate score). -/
structure FinalReport where
  sections : List SectionResult
  aggregate : Int
  webSuggestion : Option WebSuggestion
  deriving DecidableEq

/-- Modelled from the spec: the Report Compiler (spec 4.5): reorders the
completion-ordered result map into plan order and computes the rounded
mean aggregate score. -/
def compile (plan : List SectionSpec) (results : List (String × SectionResult))
    (web : Option WebSuggestion) : FinalReport :=
  let secs := plan.filterMap (fun sp => lookupKey results sp.name)
  { sections := secs
  , aggregate := aggregateScore (secs.map (fun r => r.score))
  , webSuggestion := web }

/-- Modelled from the spec: orchestrator job states (spec 4.6). -/
inductive JobStatus
  | created
  | planning
  | analyzing
  | augmenting
  | compiling
  | completed
  | failed
  deriving DecidableEq

/-- Modelled from the spec: the orchestrator state machine's transition
relation (spec 4.6): `failed` is reachable from `planning` only. -/
def allowedTransition : JobStatus → JobStatus → Bool
  | .created, .planning => true
  | .planning, .analyzing => true
  | .planning, .failed => true
  | .analyzing, .augmenting => true
  | .augmenting, .compiling => true
  | .compiling, .completed => true
  | _, _ => false

/-- Modelled from the spec: the streamed event variants (spec section 6;
the `sectionEvent` constructor is the `section` variant, renamed because
`section` is reserved in Lean). -/
inductive Event
  | status (message : String)
  | log (message : String)
  | sectionEvent (section_name : String) (analysis : String)
      (recommendations : List String) (score : Int)
  | final_report (content : String)
  | error (message : String)
  deriving DecidableEq

def isErrorEv : Event → Bool
  | .error _ => true
  | _ => false

def isFinalReportEv : Event → Bool
  | .final_report _ => true
  | _ => false

def isSectionEv : Event → Bool
  | .sectionEvent _ _ _ _ => true
  | _ => false

/-- Modelled from the spec: rendering one section into the final report
text (heading with score, analysis, bulleted recommendations and cited
sources — the markdown shape the frontend parser expects). -/
def renderSection (r : SectionResult) : String :=
  "## " ++ r.section_name ++ " (Score: " ++ toString r.score ++ "/5)\n" ++
  "### Analysis\n" ++ r.analysis ++ "\n" ++
  "### Recommendations\n" ++ String.join (r.recommendations.map (fun x => "- " ++ x ++ "\n")) ++
  "### Sources Referenced\n" ++ String.join (r.sources.map (fun x => "- " ++ x ++ "\n")) ++ "\n"

/-- Modelled from the spec: the full compiled report text carried by the
final_report event. -/
def renderReport (fr : FinalReport) : String :=
  "# PRD Analysis Report\n\n" ++ String.join (fr.sections.map renderSection) ++
  "**Overall Score: " ++ toString fr.aggregate ++ "/5**\n"

/-- Modelled from the spec: the orchestrator's single merge operation on
job state — insert a completed SectionResult under its section name
(spec 4.6 concurrent state merge / section 9 design note). -/
def insertResult (m : List (String × SectionResult)) (r : SectionResult) :
    List (String × SectionResult) :=
  setKey m r.section_name r

/-- Modelled from the spec: accumulating completed sections into the job
result map, in completion order. -/
def accumulateResults (completed : List SectionResult) : List (String × SectionResult) :=
  completed.foldl insertResult []

/-- Modelled from the spec: the observable outcome of one job run —
final status, result map, optional report and error, emitted events. -/
structure JobRun where
  finalStatus : JobStatus
  results : List (String × SectionResult)
  report : Option FinalReport
  jobError : Option String
  events : List Event

/-- Modelled from the spec: the Job Orchestrator pipeline (spec 4.6 and
section 2): plan, fan out one analyzer task per section (their
nondeterministic completion order is the `order` parameter, a
permutation of the plan), join, augment, compile, emit events.  A
planning failure is the sole fatal condition. -/
def runJob (doc : Document) (planned : List SectionSpec)
    (genOracle : SectionSpec → Nat → Option GenOutput)
    (order : List SectionSpec) (web : Option WebSuggestion) : JobRun :=
  match generatePlan doc planned with
  | .error e =>
      { finalStatus := .failed
      , results := []
      , report := none
      , jobError := some e.msg
      , events := [.status "Starting PRD analysis", .error e.msg] }
  | .ok plan =>
      let completed := order.map (fun sp => analyze sp (genOracle sp))
      let resultMap := accumulateResults completed
      let report := compile plan resultMap web
      { finalStatus := .completed
      , results := resultMap
      , report := some report
      , jobError := none
      , events :=
          [.status "Starting PRD analysis", .status "Report plan generated"]
          ++ completed.map (fun r =>
              .sectionEvent r.section_name r.analysis r.recommendations r.score)
          ++ [.status "Analysis completed successfully", .final_report (renderReport report)] }

/-- Event kind discriminator of the frontend `AnalysisEvent` interface
(src/frontend/src/services/api.ts lines 151-159): the TS union
`'section' | 'final_report' | 'log' | 'status' | 'error'`.  The
`section` variant is named `sectionKind` because `section` is reserved
in Lean; `kindDiscriminator` recovers the source strings. -/
inductive AnalysisEventKind
  | sectionKind
  | final_report
  | log
  | status
  | error
  deriving DecidableEq

/-- The TS discriminator string of each kind. -/
def kindDiscriminator : AnalysisEventKind → String
  | .sectionKind => "section"
  | .final_report => "final_report"
  | .log => "log"
  | .status => "status"
  | .error => "error"

/-- The frontend `AnalysisEvent` record
(src/frontend/src/services/api.ts lines 151-159): a `type` discriminator
and the kind-specific optional payload fields.  The interface declares
no timestamp field. -/
structure AnalysisEvent where
  type : AnalysisEventKind
  section_name : Option String
  analysis : Option String
  recommendations : Option (List String)
  score : Option Int
  content : Option String
  message : Option String
  deriving DecidableEq

/-- The field names declared by the `AnalysisEvent` interface in
src/frontend/src/services/api.ts (lines 151-159), in source order. -/
def analysisEventFieldNames : List String :=
  ["type", "section_name", "analysis", "recommendations", "score", "content", "message"]

/-- Modelled from the spec: serialization of an orchestrator event into
the frontend AnalysisEvent record (spec section 6 payload lists). -/
def eventToAnalysisEvent : Event → AnalysisEvent
  | .status m => ⟨.status, none, none, none, none, none, some m⟩
  | .log m => ⟨.log, none, none, none, none, none, some m⟩
  | .sectionEvent n a rec sc => ⟨.sectionKind, some n, some a, some rec, some sc, none, none⟩
  | .final_report c => ⟨.final_report, none, none, none, none, some c, none⟩
  | .error m => ⟨.error, none, none, none, none, none, some m⟩

/-- Whether an AnalysisEvent carries the payload its kind requires
(spec section 6: status/log/error carry a message, section carries
section_name, analysis, recommendations and score, final_report carries
the content). -/
def payloadMatchesKind (e : AnalysisEvent) : Bool :=
  match e.type with
  | .status => e.message.isSome
  | .log => e.message.isSome
  | .sectionKind =>
      e.section_name.isSome && e.analysis.isSome && e.recommendations.isSome && e.score.isSome
  | .final_report => e.content.isSome
  | .error => e.message.isSome

/-- Character list; the frontend string functions are embedded on
`List Char` and wrapped at the `String` level. -/
abbrev Chars := List Char

/-- Consume an exact literal from the front of a character list
(`none` when the list does not start with the literal). -/
def dropLit : Chars → Chars → Option Chars
  | [], cs => some cs
  | _ :: _, [] => none
  | l :: lt, c :: ct => if c = l then dropLit lt ct else none

/-- Whether a character list starts with the given literal. -/
def hasPre (lit cs : Chars) : Bool := (dropLit lit cs).isSome

/-- Maximal leading run of decimal digits (the `\d+` part of the section
heading regex) and the remainder. -/
def takeDigits : Chars → Chars × Chars
  | [] => ([], [])
  | c :: t =>
      if c.isDigit then
        let (d, r) := takeDigits t
        (c :: d, r)
      else ([], c :: t)

/-- Numeric value of a digit string (JS `parseInt` on a `\d+` match). -/
def digitsVal (ds : Chars) : Nat :=
  ds.foldl (fun a c => a * 10 + (c.toNat - 48)) 0

/-- Match `" (Score: " \d+ "/5)\n"` at the start of the input, returning
the parsed score and the remainder after the newline. -/
def matchScoreTail (cs : Chars) : Option (Nat × Chars) :=
  match dropLit " (Score: ".data cs with
  | none => none
  | some r1 =>
      let (ds, r2) := takeDigits r1
      if ds = [] then none
      else
        match dropLit "/5)\n".data r2 with
        | none => none
        | some r3 => some (digitsVal ds, r3)

/-- Lazy expansion of the section-name capture `(.+?)` of
`/## (.+?) \(Score: (\d+)\/5\)\n/`: grow the (non-empty, newline-free)
name one character at a time until the score tail matches.  `acc` holds
the reversed name accumulated so far. -/
def scanName : Chars → Chars → Option (Chars × Nat × Chars)
  | _, [] => none
  | acc, c :: t =>
      if c = '\n' then none
      else
        match matchScoreTail t with
        | some (n, r) => some ((c :: acc).reverse, n, r)
        | none => scanName (c :: acc) t

/-- Match the heading part of the section regex at exactly this
position. -/
def matchHeadAt (cs : Chars) : Option (Chars × Nat × Chars) :=
  match dropLit "## ".data cs with
  | none => none
  | some r => scanName [] r

/-- Lazy expansion of the content capture `([\s\S]*?)` up to the
lookahead `(?=\n## |$)`: the content stops at the first position that
starts with `"\n## "`, or at the end of the input.  Returns the content
and the remainder (the scan resumes at the remainder). -/
def scanContent : Chars → Chars × Chars
  | [] => ([], [])
  | c :: t =>
      if hasPre "\n## ".data (c :: t) then ([], c :: t)
      else
        let (cont, rest) := scanContent t
        (c :: cont, rest)

/-- The `sectionRegex.exec` loop of `parseFinalReport`
(src/unnamed/part_001 lines 210-213): scan left to right for the next
match of `/## (.+?) \(Score: (\d+)\/5\)\n([\s\S]*?)(?=\n## |$)/` and
collect (name, score, content) per match.  Each step consumes at least
one character, so the input length is sufficient fuel. -/
def scanGo : Nat → Chars → List (String × Nat × String)
  | 0, _ => []
  | fuel + 1, cs =>
      match matchHeadAt cs with
      | some (nm, n, r) =>
          let (cont, rest) := scanContent r
          (String.mk nm, n, String.mk cont) :: scanGo fuel rest
      | none =>
          match cs with
          | [] => []
          | _ :: t => scanGo fuel t

/-- All section matches of the report, in scan order. -/
def scanMatches (cs : Chars) : List (String × Nat × String) :=
  scanGo cs.length cs

/-- Remainder after the first occurrence of a literal (the leftmost
match position of a non-global `String.match` whose regex starts with
that literal). -/
def findLit (lit : Chars) : Chars → Option Chars
  | [] => dropLit lit []
  | c :: t =>
      match dropLit lit (c :: t) with
      | some r => some r
      | none => findLit lit t

/-- Lazy capture `([\s\S]*?)` up to a lookahead literal or end of
input. -/
def lazyUntil (stop : Chars) : Chars → Chars
  | [] => []
  | c :: t =>
      if hasPre stop (c :: t) then []
      else c :: lazyUntil stop t

/-- JS `String.prototype.trim` whitespace (the ASCII part). -/
def isJsSpace (c : Char) : Bool :=
  c = ' ' || c = '\t' || c = '\n' || c = '\r' || c = '\x0B' || c = '\x0C'

def dropLeadingSpace : Chars → Chars
  | [] => []
  | c :: t => if isJsSpace c then dropLeadingSpace t else c :: t

/-- JS `trim`: strip whitespace from both ends. -/
def trimChars (cs : Chars) : Chars :=
  ((dropLeadingSpace cs).reverse |> dropLeadingSpace).reverse

/-- JS `String.prototype.split('\n')` (empty pieces preserved). -/
def splitOnNl : Chars → List Chars
  | [] => [[]]
  | c :: t =>
      if c = '\n' then [] :: splitOnNl t
      else
        match splitOnNl t with
        | [] => [[c]]
        | p :: ps => (c :: p) :: ps

/-- Maximal run of non-newline characters (greedy `.+`) and the
remainder. -/
def takeNonNl : Chars → Chars × Chars
  | [] => ([], [])
  | c :: t =>
      if c = '\n' then ([], c :: t)
      else
        let (a, b) := takeNonNl t
        (c :: a, b)

/-- Greedy capture of `((?:- .+\n?)*)`: the maximal leading run of
lines of the form `"- "` followed by at least one non-newline character,
each line's trailing newline included.  Fuel decreases with every
consumed line. -/
def bulletGo : Nat → Chars → Chars
  | 0, _ => []
  | fuel + 1, cs =>
      match dropLit "- ".data cs with
      | none => []
      | some r =>
          let (line, r2) := takeNonNl r
          if line = [] then []
          else
            match r2 with
            | '\n' :: r3 => '-' :: ' ' :: (line ++ '\n' :: bulletGo fuel r3)
            | _ => '-' :: ' ' :: line

def bulletRun (cs : Chars) : Chars := bulletGo cs.length cs

/-- The frontend `AnalysisSection` record
(src/frontend/src/services/api.ts lines 143-149).  The `sources` field
is optional in the interface. -/
structure AnalysisSection where
  section_name : String
  analysis : String
  recommendations : List String
  score : Nat
  sources : Option (List String)
  deriving DecidableEq

/-- The analysis extraction of `parseFinalReport`
(src/unnamed/part_001 lines 216-218):
`content.match(/### Analysis\n([\s\S]*?)(?=\n### |$)/)` then trim,
empty string if there is no match. -/
def extractAnalysis (content : Chars) : String :=
  match findLit "### Analysis\n".data content with
  | some r => String.mk (trimChars (lazyUntil "\n### ".data r))
  | none => ""

/-- The bulleted-list extraction of `parseFinalReport`
(src/unnamed/part_001 lines 220-230): match the tag heading followed by
`((?:- .+\n?)*)`, split the capture on newlines, keep the lines starting
with `"- "`, drop the marker and trim. -/
def extractBullets (tag : Chars) (content : Chars) : List String :=
  match findLit tag content with
  | some r =>
      let cap := bulletRun r
      ((splitOnNl cap).filter (fun l => hasPre "- ".data l)).map
        (fun l => String.mk (trimChars (l.drop 2)))
  | none => []

/-- The section object built for one regex match of `parseFinalReport`
(src/unnamed/part_001 lines 232-238). -/
def mkAnalysisSection (t : String × Nat × String) : AnalysisSection :=
  { section_name := t.1
  , analysis := extractAnalysis t.2.2.data
  , recommendations := extractBullets "### Recommendations\n".data t.2.2.data
  , score := t.2.1
  , sources := some (extractBullets "### Sources Referenced\n".data t.2.2.data) }

/-- `parseFinalReport` from src/unnamed/part_001 (lines 206-242): run the
section regex over the report, build one AnalysisSection per match and
assign it into the result object under its section name (a later match
with the same name overwrites the earlier entry). -/
def parseFinalReport (reportContent : String) : List (String × AnalysisSection) :=
  (scanMatches reportContent.data).foldl
    (fun sections t => setKey sections t.1 (mkAnalysisSection t)) []

/-- Claim-side predicate (from the claim's own words, for comparison
with the source scanner): does a whole line match the heading pattern
`"## <name> (Score: <digits>/5)"` — `"## "`, a non-empty newline-free
name, then the score tail ending exactly at the line end? -/
def scoredHeadTailLine (cs : Chars) : Bool :=
  match dropLit " (Score: ".data cs with
  | none => false
  | some r1 =>
      let (ds, r2) := takeDigits r1
      !ds.isEmpty && (r2 == "/5)".data)

def scoredHeadingGo : Chars → Bool
  | [] => false
  | c :: t =>
      if c = '\n' then false
      else scoredHeadTailLine t || scoredHeadingGo t

/-- Claim-side predicate: the line is a heading of the form
`"## <name> (Score: <digits>/5)"`. -/
def lineIsScoredHeading (l : Chars) : Bool :=
  match dropLit "## ".data l with
  | none => false
  | some r => scoredHeadingGo r

/-- JS falsiness check on a nullable string (`!token`): null or the
empty string. -/
def isFalsyStr : Option String → Bool
  | none => true
  | some s => s == ""

/-- Unreserved characters of JS `encodeURIComponent`. -/
def isUnreservedChar (c : Char) : Bool :=
  c.isAlpha || c.isDigit ||
    ['-', '_', '.', '!', '~', '*', '\'', '(', ')'].contains c

/-- UTF-8 bytes of a character. -/
def utf8Bytes (c : Char) : List Nat :=
  let n := c.toNat
  if n < 0x80 then [n]
  else if n < 0x800 then [0xC0 + n / 0x40, 0x80 + n % 0x40]
  else if n < 0x10000 then
    [0xE0 + n / 0x1000, 0x80 + (n / 0x40) % 0x40, 0x80 + n % 0x40]
  else
    [0xF0 + n / 0x40000, 0x80 + (n / 0x1000) % 0x40, 0x80 + (n / 0x40) % 0x40, 0x80 + n % 0x40]

def hexDigitUpper (n : Nat) : Char :=
  if n < 10 then Char.ofNat (48 + n) else Char.ofNat (55 + n)

def percentEncodeChar (c : Char) : List Char :=
  (utf8Bytes c).foldr (fun b acc => '%' :: hexDigitUpper (b / 16) :: hexDigitUpper (b % 16) :: acc) []

/-- JS `encodeURIComponent`. -/
def encodeURIComponent (s : String) : String :=
  String.mk (s.data.foldr
    (fun c acc => if isUnreservedChar c then c :: acc else percentEncodeChar c ++ acc) [])

/-- Observable outcome of one `analyzePRD` call: the messages passed to
the `onError` callback, the URL of the EventSource if one was created,
and the returned value (`none` models returning `null`). -/
structure AnalyzePRDOutcome where
  errorCalls : List String
  eventSourceUrl : Option String
  retVal : Option String
  deriving DecidableEq

/-- `prdAnalysisAPI.analyzePRD` from src/frontend/src/services/api.ts
(lines 162-212), connection phase: read the token from localStorage; if
it is missing (or empty — JS falsiness), call `onError` with
`'No authentication token found'` and return null without creating an
EventSource; otherwise open an EventSource on the analysis URL and
return it. -/
def analyzePRD (localStore : List (String × String)) (prdId : String) : AnalyzePRDOutcome :=
  match lookupKey localStore "token" with
  | none =>
      { errorCalls := ["No authentication token found"]
      , eventSourceUrl := none
      , retVal := none }
  | some token =>
      if token = "" then
        { errorCalls := ["No authentication token found"]
        , eventSourceUrl := none
        , retVal := none }
      else
        let url := "http://localhost:8000/prd-analysis/analyze/" ++ prdId
          ++ "?token=" ++ encodeURIComponent token
        { errorCalls := []
        , eventSourceUrl := some url
        , retVal := some url }

theorem lookupKey_nil {α : Type} (k : String) :
    lookupKey ([] : List (String × α)) k = none := rfl

theorem lookupKey_cons {α : Type} (p : String × α) (t : List (String × α)) (k : String) :
    lookupKey (p :: t) k = if p.1 == k then some p.2 else lookupKey t k := by
  by_cases h : p.1 == k <;> simp [lookupKey, List.find?, h]

theorem lookupKey_setKey {α : Type} (m : List (String × α)) (k : String) (v : α) (q : String) :
    lookupKey (setKey m k v) q = if q = k then some v else lookupKey m q := by
  induction m with
  | nil =>
      by_cases h : q = k
      · subst h; simp [setKey, lookupKey_cons, beq_iff_eq]
      · have h' : ¬ k = q := fun hh => h hh.symm
        simp [setKey, lookupKey_cons, lookupKey_nil, beq_iff_eq, h, h']
  | cons p t ih =>
      by_cases hp : p.1 == k
      · have hp' : p.1 = k := by simpa [beq_iff_eq] using hp
        by_cases hq : q = k
        · subst hq; simp [setKey, hp, lookupKey_cons, beq_iff_eq]
        · have hq' : ¬ k = q := fun hh => hq hh.symm
          simp [setKey, hp, lookupKey_cons, hp', hq, hq', beq_iff_eq]
      · have hp' : ¬ p.1 = k := by simpa [beq_iff_eq] using hp
        by_cases hq : q = k
        · subst hq
          simp [setKey, hp, lookupKey_cons, beq_iff_eq, hp', ih]
        · by_cases hpq : p.1 = q <;>
            simp [setKey, hp, lookupKey_cons, beq_iff_eq, hpq, ih, hq]

theorem keys_setKey {α : Type} (m : List (String × α)) (k : String) (v : α) :
    (setKey m k v).map Prod.fst =
      if k ∈ m.map Prod.fst then m.map Prod.fst else m.map Prod.fst ++ [k] := by
  induction m with
  | nil => simp [setKey]
  | cons p t ih =>
      by_cases hp : p.1 == k
      · have hp' : p.1 = k := by simpa [beq_iff_eq] using hp
        simp [setKey, hp, hp']
      · have hp' : ¬ p.1 = k := by simpa [beq_iff_eq] using hp
        have hne : ¬ k = p.1 := fun h => hp' h.symm
        by_cases hmem : k ∈ t.map Prod.fst <;>
          simp [setKey, hp, ih, hmem, hne]

theorem nodup_keys_setKey {α : Type} (m : List (String × α)) (k : String) (v : α)
    (h : (m.map Prod.fst).Nodup) : ((setKey m k v).map Prod.fst).Nodup := by
  rw [keys_setKey]
  by_cases hmem : k ∈ m.map Prod.fst
  · simpa [hmem] using h
  · rw [if_neg hmem]
    refine List.nodup_append.mpr ⟨h, by simp, ?_⟩
    intro a ha hb
    have : a = k := by simpa using hb
    exact hmem (this ▸ ha)

theorem setKey_of_not_mem {α : Type} (m : List (String × α)) (k : String) (v : α)
    (h : k ∉ m.map Prod.fst) : setKey m k v = m ++ [(k, v)] := by
  induction m with
  | nil => simp [setKey]
  | cons p t ih =>
      have h1 : ¬ p.1 = k := by
        intro he
        exact h (by simp [he])
      have h2 : k ∉ t.map Prod.fst := fun hm => h (by simp [hm])
      simp [setKey, beq_iff_eq, h1, ih h2]

theorem find?_append {α : Type} (p : α → Bool) (l₁ l₂ : List α) :
    (l₁ ++ l₂).find? p =
      match l₁.find? p with
      | some a => some a
      | none => l₂.find? p := by
  induction l₁ with
  | nil => simp
  | cons a t ih =>
      by_cases h : p a <;> simp [List.find?, h, ih]

theorem lookupKey_foldl_setKey {α : Type} (l : List (String × α)) :
    ∀ (m₀ : List (String × α)) (k : String),
      lookupKey (l.foldl (fun m e => setKey m e.1 e.2) m₀) k =
        match l.reverse.find? (fun e => e.1 == k) with
        | some e => some e.2
        | none => lookupKey m₀ k := by
  induction l with
  | nil => intro m₀ k; simp
  | cons e t ih =>
      intro m₀ k
      have step : lookupKey (setKey m₀ e.1 e.2) k =
          if k = e.1 then some e.2 else lookupKey m₀ k := lookupKey_setKey m₀ e.1 e.2 k
      by_cases hfound : (t.reverse.find? (fun x => x.1 == k)).isSome
      · obtain ⟨a, ha⟩ := Option.isSome_iff_exists.mp hfound
        simp [List.foldl_cons, ih, ha, find?_append]
      · have hnone : t.reverse.find? (fun x => x.1 == k) = none := by
          cases h : t.reverse.find? (fun x => x.1 == k)
          · rfl
          · exact absurd (by simp [h]) hfound
        by_cases hk : k = e.1
        · subst hk
          simp [List.foldl_cons, ih, hnone, find?_append, step]
        · have : ¬ (e.1 == k) = true := by simpa [beq_iff_eq] using fun h => hk h.symm
          simp [List.foldl_cons, ih, hnone, find?_append, step, hk, this]

theorem lookupKey_buildMap {α : Type} (entries : List (String × α)) (k : String) :
    lookupKey (buildMap entries) k =
      (entries.reverse.find? (fun e => e.1 == k)).map (fun e => e.2) := by
  rw [buildMap, lookupKey_foldl_setKey]
  cases h : entries.reverse.find? (fun e => e.1 == k) <;> simp [h, lookupKey_nil]

theorem lookupKey_eq_none_iff {α : Type} (m : List (String × α)) (k : String) :
    lookupKey m k = none ↔ k ∉ m.map Prod.fst := by
  constructor
  · intro h hmem
    obtain ⟨p, hp, hpk⟩ := List.mem_map.mp hmem
    have := List.find?_eq_none.mp (by
      cases hf : m.find? (fun p => p.1 == k)
      · rfl
      · simp [lookupKey, hf] at h) p hp
    exact this (by simp [beq_iff_eq, hpk])
  · intro h
    cases hf : m.find? (fun p => p.1 == k)
    · simp [lookupKey, hf]
    · rename_i p
      have hp := List.mem_of_find?_eq_some hf
      have hpk : p.1 = k := by simpa [beq_iff_eq] using List.find?_some hf
      exact absurd (List.mem_map.mpr ⟨p, hp, hpk⟩) h

theorem mem_keys_buildMap {α : Type} (entries : List (String × α)) (k : String) :
    k ∈ (buildMap entries).map Prod.fst ↔ k ∈ entries.map Prod.fst := by
  constructor
  · intro h
    by_contra habs
    have hnone : entries.reverse.find? (fun e => e.1 == k) = none := by
      apply List.find?_eq_none.mpr
      intro e he hk
      exact habs (List.mem_map.mpr ⟨e, List.mem_reverse.mp he, by simpa [beq_iff_eq] using hk⟩)
    have : lookupKey (buildMap entries) k = none := by
      rw [lookupKey_buildMap, hnone]; rfl
    exact (lookupKey_eq_none_iff _ _).mp this h
  · intro h
    by_contra habs
    have : lookupKey (buildMap entries) k = none := by
      cases hf : lookupKey (buildMap entries) k
      · rfl
      · exact absurd ((lookupKey_eq_none_iff _ _).mpr habs) (by simp [hf])
    obtain ⟨e, he, hek⟩ := List.mem_map.mp h
    rw [lookupKey_buildMap] at this
    have hnone : entries.reverse.find? (fun x => x.1 == k) = none := by
      cases hf : entries.reverse.find? (fun x => x.1 == k) <;> simp [hf] at this ⊢
    exact (List.find?_eq_none.mp hnone e (List.mem_reverse.mpr he)) (by simp [beq_iff_eq, hek])

theorem nodup_keys_foldl_setKey {α : Type} (l : List (String × α)) :
    ∀ m₀ : List (String × α), (m₀.map Prod.fst).Nodup →
      ((l.foldl (fun m e => setKey m e.1 e.2) m₀).map Prod.fst).Nodup := by
  induction l with
  | nil => intro m₀ h; simpa using h
  | cons e t ih =>
      intro m₀ h
      exact ih _ (nodup_keys_setKey m₀ e.1 e.2 h)

theorem nodup_keys_buildMap {α : Type} (entries : List (String × α)) :
    ((buildMap entries).map Prod.fst).Nodup :=
  nodup_keys_foldl_setKey entries [] (by simp)

theorem foldl_setKey_of_nodup {α : Type} (l : List (String × α)) :
    ∀ m₀ : List (String × α), ((m₀ ++ l).map Prod.fst).Nodup →
      l.foldl (fun m e => setKey m e.1 e.2) m₀ = m₀ ++ l := by
  induction l with
  | nil => intro m₀ _; simp
  | cons e t ih =>
      intro m₀ h
      have hnot : e.1 ∉ m₀.map Prod.fst := by
        intro hmem
        have := (List.nodup_append.mp (by simpa [List.map_append] using h)).2.2
        exact this hmem (by simp)
      have hstep : setKey m₀ e.1 e.2 = m₀ ++ [(e.1, e.2)] := setKey_of_not_mem m₀ e.1 e.2 hnot
      have hre : (m₀ ++ [(e.1, e.2)]) ++ t = m₀ ++ e :: t := by simp
      have h' : (((m₀ ++ [(e.1, e.2)]) ++ t).map Prod.fst).Nodup := by
        rw [hre]; exact h
      calc (e :: t).foldl (fun m x => setKey m x.1 x.2) m₀
      _ = t.foldl (fun m x => setKey m x.1 x.2) (m₀ ++ [(e.1, e.2)]) := by
          simp [List.foldl_cons, hstep]
      _ = (m₀ ++ [(e.1, e.2)]) ++ t := ih _ h'
      _ = m₀ ++ e :: t := hre

theorem buildMap_of_nodup {α : Type} (entries : List (String × α))
    (h : (entries.map Prod.fst).Nodup) : buildMap entries = entries := by
  have := foldl_setKey_of_nodup entries [] (by simpa using h)
  simpa [buildMap] using this

theorem find?_key_eq_of_nodup {α : Type} (l : List (String × α)) (e : String × α)
    (hnd : (l.map Prod.fst).Nodup) (hmem : e ∈ l) :
    l.find? (fun x => x.1 == e.1) = some e := by
  induction l with
  | nil => cases hmem
  | cons p t ih =>
      rcases List.mem_cons.mp hmem with he | he
      · subst he
        simp [List.find?]
      · have hp : ¬ p.1 = e.1 := by
          intro hpe
          have : e.1 ∈ t.map Prod.fst := List.mem_map.mpr ⟨e, he, rfl⟩
          exact (List.nodup_cons.mp (by simpa using hnd)).1 (hpe ▸ this)
        have : ¬ (p.1 == e.1) = true := by simpa [beq_iff_eq] using hp
        simp [List.find?, this, ih (List.nodup_cons.mp (by simpa using hnd)).2 he]

theorem lookupKey_buildMap_of_nodup {α : Type} (entries : List (String × α)) (e : String × α)
    (hnd : (entries.map Prod.fst).Nodup) (hmem : e ∈ entries) :
    lookupKey (buildMap entries) e.1 = some e.2 := by
  rw [lookupKey_buildMap]
  have hnd' : (entries.reverse.map Prod.fst).Nodup := by
    rw [List.map_reverse]
    exact List.nodup_reverse.mpr hnd
  rw [find?_key_eq_of_nodup entries.reverse e hnd' (List.mem_reverse.mpr hmem)]
  rfl

theorem validateOutput_spec (nm : String) (g : GenOutput) (r : SectionResult)
    (h : validateOutput nm g = some r) :
    r.section_name = nm ∧ 0 ≤ r.score ∧ r.score ≤ 5 := by
  unfold validateOutput at h
  cases ha : g.analysis <;> cases hr : g.recommendations <;> cases hp : g.pitfalls <;>
    cases hs : g.supportedPoints <;> cases hc : g.score <;>
      simp [ha, hr, hp, hs, hc] at h
  rcases h with ⟨⟨hb1, hb2⟩, hres⟩
  subst hres
  exact ⟨rfl, hb1, hb2⟩

theorem analyze_section_name (sp : SectionSpec) (gen : Nat → Option GenOutput) :
    (analyze sp gen).section_name = sp.name := by
  unfold analyze
  cases h0 : (gen 0).bind (validateOutput sp.name) with
  | some r =>
      obtain ⟨g, _, hv⟩ := Option.bind_eq_some.mp h0
      exact (validateOutput_spec sp.name g r hv).1
  | none =>
      cases h1 : (gen 1).bind (validateOutput sp.name) with
      | some r =>
          obtain ⟨g, _, hv⟩ := Option.bind_eq_some.mp h1
          exact (validateOutput_spec sp.name g r hv).1
      | none => rfl

/-- C6: every SectionResult produced by the Section Analyzer — for every
possible pair of generation outcomes, including schema-validation
failure, retry exhaustion and timeout (`gen` returning `none`) — carries
an integer score that is present and within the bounded 0-5 range. -/
theorem analyze_score_in_range (sp : SectionSpec) (gen : Nat → Option GenOutput) :
    0 ≤ (analyze sp gen).score ∧ (analyze sp gen).score ≤ 5 := by
  unfold analyze
  cases h0 : (gen 0).bind (validateOutput sp.name) with
  | some r =>
      obtain ⟨g, _, hv⟩ := Option.bind_eq_some.mp h0
      exact (validateOutput_spec sp.name g r hv).2
  | none =>
      cases h1 : (gen 1).bind (validateOutput sp.name) with
      | some r =>
          obtain ⟨g, _, hv⟩ := Option.bind_eq_some.mp h1
          exact (validateOutput_spec sp.name g r hv).2
      | none => simp [degradedResult, sentinelScore]

/-- C5: for a `compressed`-strategy query whose external reranking
dependency is unavailable or errors, `retrieve` returns exactly the
ordered document list of the plain-similarity strategy for the same
query, and the call does not raise (it returns an `ok` value). -/
theorem retrieve_compressed_fallback (store : VectorStore)
    (rerank : List RetrievedDocument → Except String (List RetrievedDocument))
    (q : RetrievalQuery) (msg : String)
    (hstrat : q.strategy = .compressed)
    (hfail : rerank ((store.search q.query q.typeFilter).take (overfetchMultiplier * q.count))
        = .error msg) :
    retrieve store rerank q = .ok ((store.search q.query q.typeFilter).take q.count)
    ∧ retrieve store rerank q = retrieve store rerank { q with strategy := .plain } := by
  constructor <;> simp [retrieve, hstrat, hfail]

/-- Witness for C5 at a concrete store, query and failing reranker. -/
theorem retrieve_compressed_fallback_witness :
    (retrieve
        ⟨fun _ _ => [⟨"doc-1", "Research A", "excerpt a", 90, "research"⟩,
                     ⟨"doc-2", "Research B", "excerpt b", 80, "research"⟩]⟩
        (fun _ => .error "Cohere reranker unavailable")
        ⟨"user onboarding", ["research", "analytics"], 1, .compressed⟩
      = .ok [⟨"doc-1", "Research A", "excerpt a", 90, "research"⟩])
    ∧ (retrieve
        ⟨fun _ _ => [⟨"doc-1", "Research A", "excerpt a", 90, "research"⟩,
                     ⟨"doc-2", "Research B", "excerpt b", 80, "research"⟩]⟩
        (fun _ => .error "Cohere reranker unavailable")
        ⟨"user onboarding", ["research", "analytics"], 1, .compressed⟩
      = retrieve
        ⟨fun _ _ => [⟨"doc-1", "Research A", "excerpt a", 90, "research"⟩,
                     ⟨"doc-2", "Research B", "excerpt b", 80, "research"⟩]⟩
        (fun _ => .error "Cohere reranker unavailable")
        ⟨"user onboarding", ["research", "analytics"], 1, .plain⟩) := by
  have h := retrieve_compressed_fallback
    ⟨fun _ _ => [⟨"doc-1", "Research A", "excerpt a", 90, "research"⟩,
                 ⟨"doc-2", "Research B", "excerpt b", 80, "research"⟩]⟩
    (fun _ => .error "Cohere reranker unavailable")
    ⟨"user onboarding", ["research", "analytics"], 1, .compressed⟩
    "Cohere reranker unavailable" rfl rfl
  exact ⟨h.1, h.2⟩

theorem roundHalfUp_spec (s n : Int) (hn : 0 < n) :
    2 * s - n < 2 * (n * roundHalfUp s n) ∧ 2 * (n * roundHalfUp s n) ≤ 2 * s + n := by
  have h2n : (0 : Int) < 2 * n := by linarith
  have hdm := Int.ediv_add_emod (2 * s + n) (2 * n)
  have hrnn : 0 ≤ (2 * s + n) % (2 * n) := Int.emod_nonneg _ (by linarith)
  have hrlt : (2 * s + n) % (2 * n) < 2 * n := Int.emod_lt_of_pos _ h2n
  unfold roundHalfUp
  have hassoc : 2 * n * ((2 * s + n) / (2 * n)) = 2 * (n * ((2 * s + n) / (2 * n))) := by
    ring
  rw [hassoc] at hdm
  constructor <;> linarith

theorem aggregateScore_spec (scores : List Int) (h : scores ≠ []) :
    aggregateScore scores
        = (2 * scores.sum + (scores.length : Int)) / (2 * (scores.length : Int))
    ∧ 2 * scores.sum - (scores.length : Int)
        < 2 * ((scores.length : Int) * aggregateScore scores)
    ∧ 2 * ((scores.length : Int) * aggregateScore scores)
        ≤ 2 * scores.sum + (scores.length : Int) := by
  have hlen : scores.length ≠ 0 := by
    simpa using (List.length_pos.mpr h).ne'
  have hpos : (0 : Int) < (scores.length : Int) := by
    exact_mod_cast List.length_pos.mpr h
  have hagg : aggregateScore scores
      = (2 * scores.sum + (scores.length : Int)) / (2 * (scores.length : Int)) := by
    simp [aggregateScore, roundHalfUp, hlen]
  have hb := roundHalfUp_spec scores.sum (scores.length : Int) hpos
  rw [show roundHalfUp scores.sum (scores.length : Int)
        = aggregateScore scores by simp [aggregateScore, hlen]] at hb
  exact ⟨hagg, hb.1, hb.2⟩

/-- C7: for every compiled report with a non-empty section list, the
aggregate score is the arithmetic mean of the section scores rounded to
the integer scale: it is the half-up rounding `(2*sum + n) / (2*n)` and
lies within half a unit of the exact mean (`2*sum - n < 2*n*agg ≤
2*sum + n`). -/
theorem compile_aggregate_rounded_mean (plan : List SectionSpec)
    (results : List (String × SectionResult)) (web : Option WebSuggestion)
    (r : FinalReport) (hr : compile plan results web = r) (hne : r.sections ≠ []) :
    r.aggregate
        = (2 * (r.sections.map (fun x => x.score)).sum + (r.sections.length : Int))
          / (2 * (r.sections.length : Int))
    ∧ 2 * (r.sections.map (fun x => x.score)).sum - (r.sections.length : Int)
        < 2 * ((r.sections.length : Int) * r.aggregate)
    ∧ 2 * ((r.sections.length : Int) * r.aggregate)
        ≤ 2 * (r.sections.map (fun x => x.score)).sum + (r.sections.length : Int) := by
  have hagg : r.aggregate = aggregateScore (r.sections.map (fun x => x.score)) := by
    rw [← hr]; rfl
  have hmapne : r.sections.map (fun x => x.score) ≠ [] := by
    simpa using hne
  have hspec := aggregateScore_spec (r.sections.map (fun x => x.score)) hmapne
  rw [List.length_map] at hspec
  rw [hagg]
  exact hspec

/-- Witness for C7 at a concrete plan and result map. -/
theorem compile_aggregate_rounded_mean_witness :
    (compile [⟨"Audience", "analyze the audience", 0⟩]
        [("Audience", ⟨"Audience", "solid", ["a"], [], [], 4, ["doc-1"]⟩)] none
      = ⟨[⟨"Audience", "solid", ["a"], [], [], 4, ["doc-1"]⟩], 4, none⟩)
    ∧ (⟨[⟨"Audience", "solid", ["a"], [], [], 4, ["doc-1"]⟩], (4 : Int), none⟩ : FinalReport).sections ≠ []
    ∧ ((⟨[⟨"Audience", "solid", ["a"], [], [], 4, ["doc-1"]⟩], (4 : Int), none⟩ : FinalReport).aggregate
        = (2 * ((⟨[⟨"Audience", "solid", ["a"], [], [], 4, ["doc-1"]⟩], (4 : Int), none⟩ : FinalReport).sections.map (fun x => x.score)).sum
            + ((⟨[⟨"Audience", "solid", ["a"], [], [], 4, ["doc-1"]⟩], (4 : Int), none⟩ : FinalReport).sections.length : Int))
          / (2 * ((⟨[⟨"Audience", "solid", ["a"], [], [], 4, ["doc-1"]⟩], (4 : Int), none⟩ : FinalReport).sections.length : Int))) := by
  refine ⟨by decide, by decide, ?_⟩
  exact (compile_aggregate_rounded_mean [⟨"Audience", "analyze the audience", 0⟩]
    [("Audience", ⟨"Audience", "solid", ["a"], [], [], 4, ["doc-1"]⟩)] none
    ⟨[⟨"Audience", "solid", ["a"], [], [], 4, ["doc-1"]⟩], 4, none⟩
    (by decide) (by decide)).1

theorem accumulateResults_eq_buildMap (l : List SectionResult) :
    accumulateResults l = buildMap (l.map (fun r => (r.section_name, r))) := by
  simp only [accumulateResults, buildMap, List.foldl_map]
  rfl

theorem keys_of_entries (l : List SectionResult) :
    (l.map (fun r => (r.section_name, r))).map Prod.fst = l.map SectionResult.section_name := by
  simp [List.map_map]

theorem lookup_accumulate_of_nodup (l : List SectionResult) (r : SectionResult)
    (hnd : (l.map SectionResult.section_name).Nodup) (hmem : r ∈ l) :
    lookupKey (accumulateResults l) r.section_name = some r := by
  rw [accumulateResults_eq_buildMap]
  exact lookupKey_buildMap_of_nodup (l.map (fun r => (r.section_name, r)))
    (r.section_name, r) (by rw [keys_of_entries]; exact hnd)
    (List.mem_map.mpr ⟨r, hmem, rfl⟩)

theorem lookup_accumulate_eq_none (l : List SectionResult) (k : String)
    (h : k ∉ l.map SectionResult.section_name) :
    lookupKey (accumulateResults l) k = none := by
  rw [accumulateResults_eq_buildMap]
  apply (lookupKey_eq_none_iff _ _).mpr
  intro hmem
  have hmem' := (mem_keys_buildMap _ _).mp hmem
  rw [keys_of_entries] at hmem'
  exact h hmem'

/-- C2: for every list of uniquely named SectionResults and every
permutation of their completion order, accumulating them into the job
state by the insert-result-for-key merge operation yields the same
result map — exactly N entries, every write present (no lost writes) and
a unique entry per name (no duplicated writes). -/
theorem accumulate_perm_invariant (l₁ l₂ : List SectionResult)
    (hperm : l₁.Perm l₂) (hnd : (l₁.map SectionResult.section_name).Nodup) :
    (accumulateResults l₂).length = l₁.length
    ∧ ((accumulateResults l₂).map Prod.fst).Nodup
    ∧ (∀ r ∈ l₁, lookupKey (accumulateResults l₂) r.section_name = some r)
    ∧ (∀ k, lookupKey (accumulateResults l₂) k = lookupKey (accumulateResults l₁) k) := by
  have hnd₂ : (l₂.map SectionResult.section_name).Nodup :=
    (hperm.map SectionResult.section_name).nodup_iff.mp hnd
  refine ⟨?_, ?_, ?_, ?_⟩
  · rw [accumulateResults_eq_buildMap,
      buildMap_of_nodup _ (by rw [keys_of_entries]; exact hnd₂)]
    simpa using hperm.length_eq.symm
  · rw [accumulateResults_eq_buildMap]
    exact nodup_keys_buildMap _
  · intro r hr
    exact lookup_accumulate_of_nodup l₂ r hnd₂ (hperm.mem_iff.mp hr)
  · intro k
    by_cases hk : k ∈ l₁.map SectionResult.section_name
    · obtain ⟨r, hr, hrk⟩ := List.mem_map.mp hk
      subst hrk
      rw [lookup_accumulate_of_nodup l₂ r hnd₂ (hperm.mem_iff.mp hr),
        lookup_accumulate_of_nodup l₁ r hnd hr]
    · have hk₂ : k ∉ l₂.map SectionResult.section_name := by
        intro hmem
        exact hk (((hperm.map SectionResult.section_name).mem_iff).mpr hmem)
      rw [lookup_accumulate_eq_none l₂ k hk₂, lookup_accumulate_eq_none l₁ k hk]

/-- Witness for C2 at a concrete pair of completion orders. -/
theorem accumulate_perm_invariant_witness :
    (([⟨"Audience", "a", ["r1"], [], [], 4, []⟩,
        ⟨"Problem", "p", ["r2"], [], [], 2, []⟩] : List SectionResult).Perm
        ([⟨"Problem", "p", ["r2"], [], [], 2, []⟩,
          ⟨"Audience", "a", ["r1"], [], [], 4, []⟩] : List SectionResult)
     ∧ (([⟨"Audience", "a", ["r1"], [], [], 4, []⟩,
          ⟨"Problem", "p", ["r2"], [], [], 2, []⟩] : List SectionResult).map
            SectionResult.section_name).Nodup)
    ∧ (accumulateResults
        ([⟨"Problem", "p", ["r2"], [], [], 2, []⟩,
          ⟨"Audience", "a", ["r1"], [], [], 4, []⟩] : List SectionResult)).length
        = ([⟨"Audience", "a", ["r1"], [], [], 4, []⟩,
            ⟨"Problem", "p", ["r2"], [], [], 2, []⟩] : List SectionResult).length := by
  refine ⟨⟨by decide, by decide⟩, ?_⟩
  exact (accumulate_perm_invariant
    [⟨"Audience", "a", ["r1"], [], [], 4, []⟩, ⟨"Problem", "p", ["r2"], [], [], 2, []⟩]
    [⟨"Problem", "p", ["r2"], [], [], 2, []⟩, ⟨"Audience", "a", ["r1"], [], [], 4, []⟩]
    (by decide) (by decide)).1

theorem filterMap_eq_map_of_forall {β γ : Type} (l : List β) (g : β → Option γ) (f : β → γ)
    (h : ∀ b ∈ l, g b = some (f b)) : l.filterMap g = l.map f := by
  induction l with
  | nil => rfl
  | cons a t ih =>
      simp [List.filterMap_cons, h a (by simp), ih (fun b hb => h b (by simp [hb]))]

theorem map_name_analyze (order : List SectionSpec) (genOracle : SectionSpec → Nat → Option GenOutput) :
    (order.map (fun sp => analyze sp (genOracle sp))).map SectionResult.section_name
      = order.map SectionSpec.name := by
  induction order with
  | nil => rfl
  | cons sp t ih => simp [ih, analyze_section_name]

/-- C1: for every valid document and every run of the pipeline —
including runs in which every generation call fails, so that sections
degrade — the FinalReport produced by compile contains exactly as many
SectionResults as the plan has SectionSpecs, arranged in plan order (not
completion order): the compiled sections are precisely the analyzer
outputs of the planned sections, in plan order. -/
theorem runJob_report_plan_order (doc : Document) (planned order : List SectionSpec)
    (genOracle : SectionSpec → Nat → Option GenOutput) (web : Option WebSuggestion)
    (hdoc : minContentLength ≤ doc.content.length)
    (hperm : order.Perm planned)
    (hnd : (planned.map SectionSpec.name).Nodup) :
    ∃ r, (runJob doc planned genOracle order web).report = some r
      ∧ r.sections = planned.map (fun sp => analyze sp (genOracle sp))
      ∧ r.sections.length = planned.length
      ∧ r.sections.map SectionResult.section_name = planned.map SectionSpec.name := by
  have hplan : generatePlan doc planned = .ok planned := by
    simp [generatePlan, Nat.not_lt.mpr hdoc]
  have hndo : (order.map SectionSpec.name).Nodup :=
    ((hperm.map SectionSpec.name).nodup_iff).mpr hnd
  have hcompnames : ((order.map (fun sp => analyze sp (genOracle sp))).map
      SectionResult.section_name).Nodup := by
    rw [map_name_analyze]; exact hndo
  have hlook : ∀ sp ∈ planned,
      lookupKey (accumulateResults (order.map (fun sp => analyze sp (genOracle sp)))) sp.name
        = some (analyze sp (genOracle sp)) := by
    intro sp hsp
    have hmem : analyze sp (genOracle sp) ∈ order.map (fun sp => analyze sp (genOracle sp)) :=
      List.mem_map.mpr ⟨sp, hperm.mem_iff.mpr hsp, rfl⟩
    have := lookup_accumulate_of_nodup _ _ hcompnames hmem
    rwa [analyze_section_name] at this
  have hsec : (compile planned
      (accumulateResults (order.map (fun sp => analyze sp (genOracle sp)))) web).sections
        = planned.map (fun sp => analyze sp (genOracle sp)) := by
    simp only [compile]
    exact filterMap_eq_map_of_forall planned _ _ hlook
  refine ⟨compile planned
      (accumulateResults (order.map (fun sp => analyze sp (genOracle sp)))) web,
    ?_, hsec, ?_, ?_⟩
  · simp [runJob, hplan]
  · rw [hsec]; simp
  · rw [hsec]; exact map_name_analyze planned genOracle

/-- Witness for C1: a two-section plan completing in reversed order with
every generation call failing (both sections degrade, none is omitted). -/
theorem runJob_report_plan_order_witness :
    (minContentLength ≤ (Document.mk
        "This PRD describes the product, audience, problem and metrics in detail.").content.length
     ∧ ([⟨"Problem", "p", 1⟩, ⟨"Audience", "a", 0⟩] : List SectionSpec).Perm
        [⟨"Audience", "a", 0⟩, ⟨"Problem", "p", 1⟩]
     ∧ (([⟨"Audience", "a", 0⟩, ⟨"Problem", "p", 1⟩] : List SectionSpec).map
          SectionSpec.name).Nodup)
    ∧ (runJob
        (Document.mk
          "This PRD describes the product, audience, problem and metrics in detail.")
        [⟨"Audience", "a", 0⟩, ⟨"Problem", "p", 1⟩]
        (fun _ _ => none)
        [⟨"Problem", "p", 1⟩, ⟨"Audience", "a", 0⟩] none).report.map
          (fun r => r.sections.map SectionResult.section_name)
        = some ["Audience", "Problem"] := by
  refine ⟨⟨by decide, by decide, by decide⟩, ?_⟩
  obtain ⟨r, hrep, hsec, hlen, hnames⟩ := runJob_report_plan_order
    (Document.mk
      "This PRD describes the product, audience, problem and metrics in detail.")
    [⟨"Audience", "a", 0⟩, ⟨"Problem", "p", 1⟩]
    [⟨"Problem", "p", 1⟩, ⟨"Audience", "a", 0⟩]
    (fun _ _ => none) none (by decide) (by decide) (by decide)
  rw [hrep, Option.map_some']
  rw [hnames]
  rfl

/-- C3: for every job run, the emitted event stream is non-empty and
either (job completed) ends with a final_report event that occurs
exactly once with no error event, or (job failed) ends with an error
event that occurs exactly once with no final_report event — never
silent termination, and nothing after final_report. -/
theorem runJob_terminal_events (doc : Document) (planned order : List SectionSpec)
    (genOracle : SectionSpec → Nat → Option GenOutput) (web : Option WebSuggestion) :
    (runJob doc planned genOracle order web).events ≠ []
    ∧ (((runJob doc planned genOracle order web).finalStatus = .completed
        ∧ (∃ c, (runJob doc planned genOracle order web).events.getLast?
            = some (.final_report c))
        ∧ (runJob doc planned genOracle order web).events.countP isFinalReportEv = 1
        ∧ (runJob doc planned genOracle order web).events.countP isErrorEv = 0)
      ∨ ((runJob doc planned genOracle order web).finalStatus = .failed
        ∧ (∃ m, (runJob doc planned genOracle order web).events.getLast? = some (.error m))
        ∧ (runJob doc planned genOracle order web).events.countP isErrorEv = 1
        ∧ (runJob doc planned genOracle order web).events.countP isFinalReportEv = 0)) := by
  cases hplan : generatePlan doc planned with
  | error e =>
      refine ⟨by simp [runJob, hplan], Or.inr ⟨by simp [runJob, hplan], ⟨e.msg, ?_⟩, ?_, ?_⟩⟩ <;>
        simp [runJob, hplan, List.countP_cons, isErrorEv, isFinalReportEv]
  | ok plan =>
      have hevs : (runJob doc planned genOracle order web).events =
          ([Event.status "Starting PRD analysis", Event.status "Report plan generated"]
            ++ (order.map (fun sp => analyze sp (genOracle sp))).map (fun r =>
                Event.sectionEvent r.section_name r.analysis r.recommendations r.score)
            ++ [Event.status "Analysis completed successfully"])
          ++ [Event.final_report (renderReport (compile plan
                (accumulateResults (order.map (fun sp => analyze sp (genOracle sp)))) web))] := by
        simp [runJob, hplan]
      refine ⟨by simp [hevs], Or.inl ⟨by simp [runJob, hplan],
        ⟨renderReport (compile plan
          (accumulateResults (order.map (fun sp => analyze sp (genOracle sp)))) web), ?_⟩,
        ?_, ?_⟩⟩
      · rw [hevs]
        exact List.getLast?_concat _
      · rw [hevs]
        simp [List.countP_append, List.countP_cons, List.countP_map,
          isFinalReportEv, Function.comp]
      · rw [hevs]
        simp [List.countP_append, List.countP_cons, List.countP_map,
          isErrorEv, Function.comp]

/-- C4: an empty (or below-minimum-length) document makes the Plan
Generator fail, the job ends in the terminal failed state, the stream
carries exactly one error event and no section or final_report events;
the transition planning → failed is allowed and failed is reachable
from planning only. -/
theorem planning_failure_fatal (doc : Document) (planned order : List SectionSpec)
    (genOracle : SectionSpec → Nat → Option GenOutput) (web : Option WebSuggestion)
    (hshort : doc.content.length < minContentLength) :
    (runJob doc planned genOracle order web).finalStatus = .failed
    ∧ (runJob doc planned genOracle order web).jobError.isSome
    ∧ (runJob doc planned genOracle order web).events.countP isErrorEv = 1
    ∧ (runJob doc planned genOracle order web).events.countP isSectionEv = 0
    ∧ (runJob doc planned genOracle order web).events.countP isFinalReportEv = 0
    ∧ allowedTransition .planning .failed = true
    ∧ (∀ s t : JobStatus, allowedTransition s t = true → t = .failed → s = .planning) := by
  have hplan : generatePlan doc planned
      = .error ⟨"Document is empty or below the minimum content length"⟩ := by
    simp [generatePlan, hshort]
  refine ⟨?_, ?_, ?_, ?_, ?_, rfl, ?_⟩
  · simp [runJob, hplan]
  · simp [runJob, hplan]
  · simp [runJob, hplan, List.countP_cons, isErrorEv]
  · simp [runJob, hplan, List.countP_cons, isSectionEv]
  · simp [runJob, hplan, List.countP_cons, isFinalReportEv]
  · intro s t h1 h2
    subst h2
    cases s <;> simp [allowedTransition] at h1 ⊢

/-- Witness for C4 at the empty document. -/
theorem planning_failure_fatal_witness :
    ((Document.mk "").content.length < minContentLength)
    ∧ (runJob (Document.mk "") [] (fun _ _ => none) [] none).finalStatus = .failed
    ∧ (runJob (Document.mk "") [] (fun _ _ => none) [] none).events.countP isErrorEv = 1
    ∧ (runJob (Document.mk "") [] (fun _ _ => none) [] none).events.countP isSectionEv = 0
    ∧ (runJob (Document.mk "") [] (fun _ _ => none) [] none).events.countP isFinalReportEv = 0 := by
  have h := planning_failure_fatal (Document.mk "") [] [] (fun _ _ => none) none (by decide)
  exact ⟨by decide, h.1, h.2.2.1, h.2.2.2.1, h.2.2.2.2.1⟩

theorem parseFinalReport_eq_buildMap (s : String) :
    parseFinalReport s
      = buildMap ((scanMatches s.data).map (fun t => (t.1, mkAnalysisSection t))) := by
  simp only [parseFinalReport, buildMap, List.foldl_map]

/-- C9 counterexample: in the report consisting of the single line
"## A (Score: 3/5)", that line is a heading matching the pattern
'## <name> (Score: <digits>/5)', yet parseFinalReport returns the empty
map — the claimed entry for section name "A" is missing (the source
regex additionally requires a newline after the heading). -/
theorem parseFinalReport_heading_counterexample :
    (splitOnNl "## A (Score: 3/5)".data).any lineIsScoredHeading = true
    ∧ parseFinalReport "## A (Score: 3/5)" = [] := by
  constructor <;> decide

/-- C9 (amended): for every report string, parseFinalReport returns a
map with no duplicate keys whose keys are exactly the distinct section
names of the left-to-right regex-scan matches (`scanMatches`, the
embedded `/## (.+?) \(Score: (\d+)\/5\)\n([\s\S]*?)(?=\n## |$)/g` exec
loop — a match needs a newline after its heading and may start
mid-line); the entry for a name is the AnalysisSection built from the
last match with that name (a later match overwrites an earlier one),
with the score parsed from that match's heading and the
recommendations and sources taken from the leading '- '-line runs after
the '### Recommendations' / '### Sources Referenced' markers of that
match's content. -/
theorem parseFinalReport_spec (s : String) :
    ((parseFinalReport s).map Prod.fst).Nodup
    ∧ (∀ k, k ∈ (parseFinalReport s).map Prod.fst
        ↔ k ∈ (scanMatches s.data).map (fun t => t.1))
    ∧ (∀ k, lookupKey (parseFinalReport s) k
        = ((scanMatches s.data).reverse.find? (fun t => t.1 == k)).map mkAnalysisSection) := by
  refine ⟨?_, ?_, ?_⟩
  · rw [parseFinalReport_eq_buildMap]
    exact nodup_keys_buildMap _
  · intro k
    rw [parseFinalReport_eq_buildMap]
    rw [mem_keys_buildMap]
    simp [List.map_map]
  · intro k
    rw [parseFinalReport_eq_buildMap, lookupKey_buildMap]
    rw [show ((scanMatches s.data).map (fun t => (t.1, mkAnalysisSection t))).reverse
        = (scanMatches s.data).reverse.map (fun t => (t.1, mkAnalysisSection t)) by
      rw [List.map_reverse]]
    rw [List.find?_map]
    rw [Option.map_map]
    rfl

/-- C8 counterexample: the AnalysisEvent record of the stream
(src/frontend/src/services/api.ts lines 151-159) declares exactly the
fields type, section_name, analysis, recommendations, score, content
and message; "timestamp" is not among them, so events do not carry a
timestamp (the frontend renders display timestamps from its own clock
instead). -/
theorem analysisEvent_no_timestamp_field :
    "timestamp" ∉ analysisEventFieldNames := by
  decide

/-- C8 (amended): every streamed event serializes to one of the five
discriminated variants — status, log, section, final_report, error —
and carries a payload matching its kind (status/log/error a message,
section its name, analysis, recommendations and score, final_report the
report content); events carry no timestamp field. -/
theorem event_kinds_and_payloads (ev : Event) :
    ((eventToAnalysisEvent ev).type = .status ∨ (eventToAnalysisEvent ev).type = .log
      ∨ (eventToAnalysisEvent ev).type = .sectionKind
      ∨ (eventToAnalysisEvent ev).type = .final_report
      ∨ (eventToAnalysisEvent ev).type = .error)
    ∧ payloadMatchesKind (eventToAnalysisEvent ev) = true := by
  cases ev <;> simp [eventToAnalysisEvent, payloadMatchesKind]

/-- C10: when no authentication token is stored under the 'token' key
in localStorage, analyzePRD invokes its onError callback with
'No authentication token found' and returns null without creating an
EventSource, so no stream connection is opened. -/
theorem analyzePRD_no_token (localStore : List (String × String)) (prdId : String)
    (h : lookupKey localStore "token" = none) :
    (analyzePRD localStore prdId).errorCalls = ["No authentication token found"]
    ∧ (analyzePRD localStore prdId).eventSourceUrl = none
    ∧ (analyzePRD localStore prdId).retVal = none := by
  simp [analyzePRD, h]

/-- Witness for C10 at an empty localStorage. -/
theorem analyzePRD_no_token_witness :
    lookupKey ([] : List (String × String)) "token" = none
    ∧ (analyzePRD [] "user-1").errorCalls = ["No authentication token found"]
    ∧ (analyzePRD [] "user-1").eventSourceUrl = none
    ∧ (analyzePRD [] "user-1").retVal = none :=
  ⟨by decide, analyzePRD_no_token [] "user-1" (by decide)⟩

end PRD
